import Mathlib

/-!
Shallow embedding of `src/image_organizer.py` (Smart Image Organizer).

The filesystem is modelled as a list of files; each file carries its path
(components relative to the source directory), byte content, modification
time, optional EXIF table and optional pixel dimensions. Library routines
that are not part of the repository (decimal rendering of integers,
`datetime.strptime` on the fixed format, `pathlib` suffix and stem,
`shutil.copy2`) are modelled explicitly; the MD5 digest and the
epoch-to-calendar conversion `datetime.fromtimestamp` are kept as abstract
parameters, since only their input-output behaviour reaches the claims.
-/

namespace ImageOrganizer

/-- Little-endian base-10 digits of `n`, computed with explicit fuel; fuel
`n + 1` always suffices because the recursive argument strictly decreases.
Models the decimal digit sequence Python uses to render an integer. -/
def digitsRevFuel : Nat → Nat → List Nat
  | 0, _ => []
  | fuel + 1, n => if n < 10 then [n] else n % 10 :: digitsRevFuel fuel (n / 10)

/-- Decimal string of a natural number, as Python renders a non-negative
integer in an f-string or `str(...)`. -/
def natDecimal (n : Nat) : String :=
  String.mk ((digitsRevFuel (n + 1) n).reverse.map Nat.digitChar)

/-- Zero-padding to two digits, as Python `{x:02d}` formatting and the
two-digit `strftime` fields produce for values below 100. -/
def pad2 (n : Nat) : String :=
  if n < 10 then "0" ++ natDecimal n else natDecimal n

/-- Zero-padding to four digits, as the year field of `strftime` renders
calendar years (all years reaching it here are below 10000). -/
def pad4 (n : Nat) : String :=
  if n < 10 then "000" ++ natDecimal n
  else if n < 100 then "00" ++ natDecimal n
  else if n < 1000 then "0" ++ natDecimal n
  else natDecimal n

/-- A calendar timestamp: `datetime.datetime` restricted to the fields the
program consumes. -/
structure DateTime where
  year : Nat
  month : Nat
  day : Nat
  hour : Nat
  minute : Nat
  second : Nat
deriving DecidableEq

/-- Numeric value of a decimal digit character. -/
def digitVal (c : Char) : Nat := c.toNat - 48

/-- Exactly four decimal digits, as the year directive of CPython
`_strptime` matches. -/
def parse4Digits : List Char → Option (Nat × List Char)
  | a :: b :: c :: d :: rest =>
    if a.isDigit && b.isDigit && c.isDigit && d.isDigit then
      some (digitVal a * 1000 + digitVal b * 100 + digitVal c * 10 + digitVal d, rest)
    else none
  | _ => none

/-- A numeric field of one or two digits constrained to `[lo, hi]`,
following the ordered alternations CPython `_strptime` compiles for the
month, day, hour, minute and second directives: a two-digit in-range match
is preferred, otherwise a single in-range digit. -/
def parseField (lo hi : Nat) : List Char → Option (Nat × List Char)
  | a :: b :: rest =>
    if a.isDigit && b.isDigit && lo ≤ digitVal a * 10 + digitVal b
        && digitVal a * 10 + digitVal b ≤ hi then
      some (digitVal a * 10 + digitVal b, rest)
    else if a.isDigit && lo ≤ digitVal a && digitVal a ≤ hi then
      some (digitVal a, b :: rest)
    else none
  | [a] =>
    if a.isDigit && lo ≤ digitVal a && digitVal a ≤ hi then some (digitVal a, [])
    else none
  | [] => none

/-- One expected literal character. -/
def parseChar (c : Char) : List Char → Option (List Char)
  | a :: rest => if a = c then some rest else none
  | [] => none

/-- Gregorian leap-year rule, as `calendar`/`datetime` implement it. -/
def isLeapYear (y : Nat) : Bool :=
  y % 4 = 0 && (y % 100 ≠ 0 || y % 400 = 0)

/-- Number of days of a month, used by the `datetime` constructor to
validate the day field. -/
def daysInMonth (y m : Nat) : Nat :=
  if m = 2 then (if isLeapYear y then 29 else 28)
  else if m = 4 || m = 6 || m = 9 || m = 11 then 30
  else 31

/-- Modelled library routine: `datetime.strptime(value, fmt)` with the fixed
format `year:month:day hour:minute:second` of line 25. Matches the ordered
alternations CPython compiles for each directive, requires the whole string
to be consumed, and validates what the `datetime` constructor enforces
(month lengths, leap years, year at least 1). Returns `none` exactly when
CPython raises `ValueError`. -/
def strptimeYmdHms (s : String) : Option DateTime := do
  let (y, r1) ← parse4Digits s.data
  let r2 ← parseChar ':' r1
  let (mo, r3) ← parseField 1 12 r2
  let r4 ← parseChar ':' r3
  let (d, r5) ← parseField 1 31 r4
  let r6 ← parseChar ' ' r5
  let (h, r7) ← parseField 0 23 r6
  let r8 ← parseChar ':' r7
  let (mi, r9) ← parseField 0 59 r8
  let r10 ← parseChar ':' r9
  let (se, r11) ← parseField 0 59 r10
  if r11 = [] && 1 ≤ y && d ≤ daysInMonth y mo then
    pure ⟨y, mo, d, h, mi, se⟩
  else none

/-- A file of the modelled filesystem. `path` lists the components below the
source directory (an immediate child has a single component). `exif` is
`none` when opening the file as an image or reading its EXIF table fails
(the code collapses both into the same fallback), and otherwise the tag
table `Image.open(p)._getexif()` yields, with `some []` covering an empty
table; `dims` is `none` when the pixel dimensions cannot be read. `mtime`
is the modification time in epoch seconds. -/
structure FSFile where
  path : List String
  content : List Nat
  mtime : Nat
  exif : Option (List (Nat × String))
  dims : Option (Nat × Nat)
deriving DecidableEq

/-- The final path component of a file, as `PurePath.name`. -/
def nameOf (f : FSFile) : String := f.path.getLast?.getD ""

/-- Modelled library routine: `pathlib.PurePath.suffix` of a name — the part
from the last dot on, provided that dot is neither the first nor the last
character; otherwise the empty string. -/
def pySuffix (name : String) : String :=
  let cs := name.data
  match cs.reverse.findIdx? (fun c => c = '.') with
  | none => ""
  | some j =>
    let i := cs.length - 1 - j
    if 0 < i && i < cs.length - 1 then String.mk (cs.drop i) else ""

/-- Modelled library routine: `pathlib.PurePath.stem` — the name with its
`pySuffix` removed. -/
def pyStem (name : String) : String :=
  let cs := name.data
  match cs.reverse.findIdx? (fun c => c = '.') with
  | none => name
  | some j =>
    let i := cs.length - 1 - j
    if 0 < i && i < cs.length - 1 then String.mk (cs.take i) else name

/-- Modelled library routine: Python `str.lower`, which lower-cases each
character (the extensions compared here are ASCII). -/
def strLower (s : String) : String := String.mk (s.data.map Char.toLower)

/-- The supported image extensions of lines 70, 108 and 134. -/
def supportedExts : List String :=
  [".jpg", ".jpeg", ".png", ".gif", ".bmp", ".webp", ".tiff"]

/-- Whether `source_path.glob("*.*")` yields this name: the `fnmatch`
translation of the pattern requires at least one dot anywhere in the name
(pathlib glob has no hidden-file rule). -/
def globMatch (name : String) : Bool := name.data.contains '.'

/-- File selection shared by the scanning operations (lines 69 to 70, 107 to
108, 133 to 134): an immediate child of the source directory, matched by
`glob`, whose lower-cased `pathlib` suffix is in the supported list. -/
def isSelected (f : FSFile) : Bool :=
  f.path.length = 1 && globMatch (nameOf f)
    && supportedExts.contains (strLower (pySuffix (nameOf f)))

/-- `get_image_date` (lines 17 to 29): EXIF tag 36867 (DateTimeOriginal)
parsed with `strptimeYmdHms`; on any failure along the way, the file
modification time through the abstract `datetime.fromtimestamp` conversion
`ft`. -/
def get_image_date (ft : Nat → DateTime) (f : FSFile) : DateTime :=
  match f.exif with
  | none => ft f.mtime
  | some entries =>
    match entries.find? (fun e => e.1 == 36867) with
    | none => ft f.mtime
    | some e =>
      match strptimeYmdHms e.2 with
      | none => ft f.mtime
      | some d => d

/-- `get_image_size` (lines 32 to 38): pixel dimensions, `(0, 0)` on any
failure. -/
def get_image_size (f : FSFile) : Nat × Nat := f.dims.getD (0, 0)

/-- `categorize_by_size` (lines 41 to 49). -/
def categorize_by_size (width height : Nat) : String :=
  let total_pixels := width * height
  if total_pixels < 500000 then "small"
  else if total_pixels < 2000000 then "medium"
  else "large"

/-- `calculate_file_hash` (lines 52 to 58) streams the whole file content
through MD5; the digest is abstract here, a function `md5` of the full byte
content. -/
def calculate_file_hash (md5 : List Nat → String) (f : FSFile) : String :=
  md5 f.content

/-- The candidate destination names the two collision loops try, in order:
candidate 0 is `base ++ ext` and candidate `k` for positive `k` carries the
counter value `k` between base and extension (lines 76 to 83, 113 to 118). -/
def candName (base ext : String) (k : Nat) : String :=
  if k = 0 then base ++ ext else base ++ "_" ++ natDecimal k ++ ext

/-- The collision `while` loop body: starting from candidate `k`, the first
candidate name not occurring in `occ`; `fuel` bounds the recursion. The
source loops until a free name turns up; `chooseName` passes fuel that
provably suffices (see `chooseNameAux_spec` and `exists_candName_free`), so
the fuel-exhausted branch is unreachable. -/
def chooseNameAux (occ : List String) (base ext : String) : Nat → Nat → String
  | 0, k => candName base ext k
  | fuel + 1, k =>
    if candName base ext k ∈ occ then chooseNameAux occ base ext fuel (k + 1)
    else candName base ext k

/-- The destination name the collision loop settles on, given the names
`occ` already present in the destination folder. -/
def chooseName (occ : List String) (base ext : String) : String :=
  chooseNameAux occ base ext (occ.length + 1) 0

/-- The names present in directory `folder`: last components of the files
sitting exactly one level below `folder`. Membership in this list models
`(folder / name).exists()`. -/
def dirNames (fs : List FSFile) (folder : List String) : List String :=
  fs.filterMap fun g => if g.path.dropLast = folder then g.path.getLast? else none

/-- Modelled library routine: `shutil.copy2(src, dst)` — places at `dst` a
file with the content and metadata of `src` (hence the same EXIF table,
pixel dimensions and modification time), replacing any file already at
`dst`. -/
def copyTo (fs : List FSFile) (dst : List String) (src : FSFile) : List FSFile :=
  fs.filter (fun g => g.path ≠ dst) ++ [{ src with path := dst }]

/-- Target folder name of `organize_by_date` (line 61). -/
def dateTargetDir : String := "organized_by_date"

/-- Target folder name of `organize_by_size` (line 93). -/
def sizeTargetDir : String := "organized_by_size"

/-- One iteration of the `organize_by_date` loop body (lines 70 to 86) on a
selected file: extract the date, build the year/month folder, format the
timestamp filename, resolve name collisions, copy, and record the
`(original name, relative destination path)` pair. -/
def processDateFile (ft : Nat → DateTime) (fs : List FSFile) (f : FSFile) :
    List FSFile × (String × String) :=
  let date := get_image_date ft f
  let folder := [dateTargetDir, natDecimal date.year, pad2 date.month]
  let base := pad4 date.year ++ pad2 date.month ++ pad2 date.day ++ "_"
      ++ pad2 date.hour ++ pad2 date.minute ++ pad2 date.second
  let nm := chooseName (dirNames fs folder) base (pySuffix (nameOf f))
  let dst := folder ++ [nm]
  (copyTo fs dst f, (nameOf f, String.intercalate "/" dst))

/-- State update of one `organize_by_date` iteration: thread the filesystem
and append the recorded pair. -/
def dateStep (ft : Nat → DateTime) (st : List FSFile × List (String × String))
    (f : FSFile) : List FSFile × List (String × String) :=
  let r := processDateFile ft st.1 f
  (r.1, st.2 ++ [r.2])

/-- `organize_by_date` (lines 61 to 90): fold the loop body over the
selected immediate children, threading the filesystem; the recorded pairs
are the value stored under the `date` key of the returned dict. -/
def organize_by_date (ft : Nat → DateTime) (fs : List FSFile) :
    List FSFile × List (String × String) :=
  (fs.filter isSelected).foldl (dateStep ft) (fs, [])

/-- One iteration of the `organize_by_size` loop body (lines 108 to 121) on
a selected file: classify by pixel count, resolve collisions on the
original name inside the bucket folder (candidate 0, `stem ++ suffix`, is
the original name by `pyStem_append_pySuffix`), copy, and record the
`(bucket, original name, relative destination path)` triple. -/
def processSizeFile (fs : List FSFile) (f : FSFile) :
    List FSFile × (String × String × String) :=
  let sz := get_image_size f
  let category := categorize_by_size sz.1 sz.2
  let folder := [sizeTargetDir, category]
  let nm := chooseName (dirNames fs folder) (pyStem (nameOf f)) (pySuffix (nameOf f))
  let dst := folder ++ [nm]
  (copyTo fs dst f, (category, nameOf f, String.intercalate "/" dst))

/-- State update of one `organize_by_size` iteration. -/
def sizeStep (st : List FSFile × List (String × String × String))
    (f : FSFile) : List FSFile × List (String × String × String) :=
  let r := processSizeFile st.1 f
  (r.1, st.2 ++ [r.2])

/-- `organize_by_size` (lines 93 to 125): fold the loop body over the
selected immediate children. The Python version returns a dict from bucket
to pairs; the triple list here is the same data in processing order, the
dict entry of a bucket being the pairs of the triples carrying it. -/
def organize_by_size (fs : List FSFile) :
    List FSFile × List (String × String × String) :=
  (fs.filter isSelected).foldl sizeStep (fs, [])

/-- Insert `f` under key `h` in an insertion-ordered association list, as
appending to `defaultdict(list)[h]`: a new key goes to the end, an existing
key keeps its position and appends to its list. -/
def addToGroup (acc : List (String × List FSFile)) (h : String) (f : FSFile) :
    List (String × List FSFile) :=
  match acc with
  | [] => [(h, [f])]
  | (k, l) :: rest =>
    if k = h then (k, l ++ [f]) :: rest else (k, l) :: addToGroup rest h f

/-- The list stored under key `h` in an insertion-ordered association list,
empty when the key is absent: `hash_to_files[h]` in dict terms. -/
def lookupGroup (acc : List (String × List FSFile)) (h : String) : List FSFile :=
  ((acc.find? (fun p => p.1 == h)).map Prod.snd).getD []

/-- `find_duplicates` (lines 128 to 142): group the selected files by
content hash, keeping only the groups with at least two members. -/
def find_duplicates (md5 : List Nat → String) (fs : List FSFile) :
    List (String × List FSFile) :=
  let grouped := (fs.filter isSelected).foldl
    (fun acc f => addToGroup acc (calculate_file_hash md5 f) f) []
  grouped.filter (fun g => 1 < g.2.length)

/-- The in-place `files.sort(key=lambda f: f.stat().st_mtime)` of line 151:
a stable ascending sort on modification time. -/
def sortByMtime (files : List FSFile) : List FSFile :=
  files.insertionSort (fun a b => a.mtime ≤ b.mtime)

/-- The files slated for deletion from one duplicate group (lines 151 to
156): sorted ascending by modification time, minus the survivor the
retention mode picks. -/
def victims (keep : String) (files : List FSFile) : List FSFile :=
  let sorted := sortByMtime files
  if keep = "last" then sorted.dropLast else sorted.tail

/-- The unlink-and-record inner loop of lines 158 to 160. -/
def removeFiles (st : List FSFile × List String) (toRemove : List FSFile) :
    List FSFile × List String :=
  toRemove.foldl
    (fun st2 f => (st2.1.filter (fun g => g.path ≠ f.path), st2.2 ++ [nameOf f])) st

/-- `remove_duplicates` (lines 145 to 162): for every duplicate group delete
all but the retained file, returning the new filesystem and the flat list
of deleted names. -/
def remove_duplicates (md5 : List Nat → String) (fs : List FSFile) (keep : String) :
    List FSFile × List String :=
  (find_duplicates md5 fs).foldl (fun st g => removeFiles st (victims keep g.2)) (fs, [])

/-- The parsed command line of lines 169 to 178: one positional source
directory, four independent boolean mode flags, and the retention choice
(argparse restricts it to `first` or `last`, defaulting to `first`). -/
structure Args where
  source : String
  by_date : Bool
  by_size : Bool
  find_dupes : Bool
  remove_dupes : Bool
  keep : String
deriving DecidableEq

/-- The four operations the dispatcher can run. -/
inductive Op
  | byDate | bySize | findDupes | removeDupes
deriving DecidableEq

/-- The dispatch ladder of `main` (lines 180 to 209): the `elif` chain runs
at most one operation per invocation; with no flag set, nothing runs. The
find-duplicates branch calls `find_duplicates`, which only reads the
filesystem and prints, so the state passes through unchanged. Returns the
operation performed, if any, and the resulting filesystem. -/
def mainDispatch (ft : Nat → DateTime) (md5 : List Nat → String)
    (args : Args) (fs : List FSFile) : Option Op × List FSFile :=
  if args.by_date then (some .byDate, (organize_by_date ft fs).1)
  else if args.by_size then (some .bySize, (organize_by_size fs).1)
  else if args.find_dupes then (some .findDupes, fs)
  else if args.remove_dupes then (some .removeDupes, (remove_duplicates md5 fs args.keep).1)
  else (none, fs)

/-- Value of a little-endian digit list; used to state that `digitsRevFuel`
is a faithful digit expansion. -/
def numOfDigits : List Nat → Nat
  | [] => 0
  | d :: ds => d + 10 * numOfDigits ds

/-- Whether a file sits inside the output tree rooted at the immediate
child directory `dir` of the source folder. -/
def underDir (dir : String) (g : FSFile) : Bool :=
  g.path.head? = some dir && 2 ≤ g.path.length

instance : IsTotal FSFile (fun a b => a.mtime ≤ b.mtime) :=
  ⟨fun a b => Nat.le_total a.mtime b.mtime⟩

instance : IsTrans FSFile (fun a b => a.mtime ≤ b.mtime) :=
  ⟨fun _ _ _ h1 h2 => Nat.le_trans h1 h2⟩

/-! ### Decimal rendering -/

theorem digitsRevFuel_lt10 : ∀ fuel n, ∀ d ∈ digitsRevFuel fuel n, d < 10 := by
  intro fuel
  induction fuel with
  | zero => intro n d hd; simp [digitsRevFuel] at hd
  | succ fuel ih =>
    intro n d hd
    by_cases h : n < 10
    · simp [digitsRevFuel, h] at hd; omega
    · simp [digitsRevFuel, h] at hd
      rcases hd with h1 | h2
      · omega
      · exact ih _ _ h2

theorem numOfDigits_digitsRevFuel :
    ∀ fuel n, n < fuel → numOfDigits (digitsRevFuel fuel n) = n := by
  intro fuel
  induction fuel with
  | zero => intro n h; omega
  | succ fuel ih =>
    intro n h
    by_cases h10 : n < 10
    · simp [digitsRevFuel, h10, numOfDigits]
    · have hdiv : n / 10 < fuel := by
        have := Nat.div_lt_self (show 0 < n by omega) (show 1 < 10 by omega)
        omega
      simp [digitsRevFuel, h10, numOfDigits, ih _ hdiv]
      omega

theorem digitChar_inj_lt10 :
    ∀ a, a < 10 → ∀ b, b < 10 → Nat.digitChar a = Nat.digitChar b → a = b := by
  decide

theorem map_digitChar_inj :
    ∀ l1 l2 : List Nat, (∀ d ∈ l1, d < 10) → (∀ d ∈ l2, d < 10) →
      l1.map Nat.digitChar = l2.map Nat.digitChar → l1 = l2 := by
  intro l1
  induction l1 with
  | nil => intro l2 _ _ h; cases l2 <;> simp_all
  | cons a l ih =>
    intro l2 h1 h2 h
    cases l2 with
    | nil => simp at h
    | cons b l2t =>
      simp only [List.map_cons, List.cons.injEq] at h
      have ha : a = b :=
        digitChar_inj_lt10 a (h1 a (by simp)) b (h2 b (by simp)) h.1
      have ht := ih l2t (fun d hd => h1 d (by simp [hd]))
        (fun d hd => h2 d (by simp [hd])) h.2
      simp [ha, ht]

theorem natDecimal_inj {m n : Nat} (h : natDecimal m = natDecimal n) : m = n := by
  have hdata : (digitsRevFuel (m + 1) m).reverse.map Nat.digitChar
      = (digitsRevFuel (n + 1) n).reverse.map Nat.digitChar := String.ext_iff.mp h
  have hrev := map_digitChar_inj _ _
    (fun d hd => digitsRevFuel_lt10 _ _ d (List.mem_reverse.mp hd))
    (fun d hd => digitsRevFuel_lt10 _ _ d (List.mem_reverse.mp hd)) hdata
  have hdig : digitsRevFuel (m + 1) m = digitsRevFuel (n + 1) n :=
    List.reverse_injective hrev
  have hm := numOfDigits_digitsRevFuel (m + 1) m (by omega)
  rw [hdig, numOfDigits_digitsRevFuel (n + 1) n (by omega)] at hm
  omega

theorem natDecimal_data_ne_nil (n : Nat) : (natDecimal n).data ≠ [] := by
  show (digitsRevFuel (n + 1) n).reverse.map Nat.digitChar ≠ []
  by_cases h : n < 10 <;> simp [digitsRevFuel, h]

/-! ### Candidate names and the collision loop -/

theorem candName_data (base ext : String) (k : Nat) :
    (candName base ext k).data =
      if k = 0 then base.data ++ ext.data
      else base.data ++ '_' :: ((natDecimal k).data ++ ext.data) := by
  by_cases h : k = 0 <;>
    simp [candName, h, String.data_append, List.append_assoc]

theorem candName_inj (base ext : String) :
    ∀ {k j}, candName base ext k = candName base ext j → k = j := by
  intro k j h
  have hd := congrArg String.data h
  rw [candName_data, candName_data] at hd
  by_cases hk : k = 0 <;> by_cases hj : j = 0
  · omega
  · exfalso
    simp only [if_pos hk, if_neg hj] at hd
    have hlen := congrArg List.length hd
    have hne : 0 < (natDecimal j).data.length :=
      List.length_pos.mpr (natDecimal_data_ne_nil j)
    simp [List.length_append] at hlen
    omega
  · exfalso
    simp only [if_neg hk, if_pos hj] at hd
    have hlen := congrArg List.length hd
    have hne : 0 < (natDecimal k).data.length :=
      List.length_pos.mpr (natDecimal_data_ne_nil k)
    simp [List.length_append] at hlen
    omega
  · simp only [if_neg hk, if_neg hj] at hd
    have h1 := List.append_cancel_left hd
    have h2 : (natDecimal k).data ++ ext.data = (natDecimal j).data ++ ext.data := by
      injection h1
    have h3 := List.append_cancel_right h2
    exact natDecimal_inj (String.ext h3)

theorem chooseNameAux_spec (occ : List String) (base ext : String) :
    ∀ fuel k, (∃ j, k ≤ j ∧ j ≤ k + fuel ∧ candName base ext j ∉ occ) →
    ∃ j, k ≤ j ∧ chooseNameAux occ base ext fuel k = candName base ext j
      ∧ candName base ext j ∉ occ
      ∧ ∀ i, k ≤ i → i < j → candName base ext i ∈ occ := by
  intro fuel
  induction fuel with
  | zero =>
    intro k hex
    obtain ⟨j, hkj, hjk, hfree⟩ := hex
    have hj : j = k := by omega
    subst hj
    exact ⟨j, Nat.le_refl _, rfl, hfree, fun i h1 h2 => by omega⟩
  | succ fuel ih =>
    intro k hex
    by_cases hmem : candName base ext k ∈ occ
    · have hex2 : ∃ j, k + 1 ≤ j ∧ j ≤ (k + 1) + fuel ∧ candName base ext j ∉ occ := by
        obtain ⟨j, h1, h2, h3⟩ := hex
        have hne : j ≠ k := fun he => h3 (he ▸ hmem)
        exact ⟨j, by omega, by omega, h3⟩
      obtain ⟨j, hj1, hj2, hj3, hj4⟩ := ih (k + 1) hex2
      refine ⟨j, by omega, ?_, hj3, ?_⟩
      · simpa [chooseNameAux, hmem] using hj2
      · intro i hi1 hi2
        rcases Nat.eq_or_lt_of_le hi1 with heq | hlt
        · exact heq ▸ hmem
        · exact hj4 i (by omega) hi2
    · exact ⟨k, Nat.le_refl _, by simp [chooseNameAux, hmem], hmem,
        fun i h1 h2 => by omega⟩

theorem exists_candName_free (occ : List String) (base ext : String) :
    ∃ j, j ≤ occ.length ∧ candName base ext j ∉ occ := by
  by_contra hcon
  push_neg at hcon
  have hsub : (List.range (occ.length + 1)).map (candName base ext) ⊆ occ := by
    intro x hx
    simp only [List.mem_map, List.mem_range] at hx
    obtain ⟨j, hj, rfl⟩ := hx
    exact hcon j (by omega)
  have hnodup : ((List.range (occ.length + 1)).map (candName base ext)).Nodup := by
    refine List.Nodup.map_on ?_ (List.nodup_range _)
    intro x _ y _ hxy
    exact candName_inj base ext hxy
  have hle := (List.subperm_of_subset hnodup hsub).length_le
  simp at hle

theorem chooseName_spec (occ : List String) (base ext : String) :
    ∃ j, chooseName occ base ext = candName base ext j
      ∧ candName base ext j ∉ occ
      ∧ ∀ i, i < j → candName base ext i ∈ occ := by
  obtain ⟨j0, hj0, hfree⟩ := exists_candName_free occ base ext
  obtain ⟨j, _, heq, hf, hmin⟩ := chooseNameAux_spec occ base ext (occ.length + 1) 0
    ⟨j0, by omega, by omega, hfree⟩
  exact ⟨j, heq, hf, fun i hi => hmin i (by omega) hi⟩

theorem chooseName_not_mem (occ : List String) (base ext : String) :
    chooseName occ base ext ∉ occ := by
  obtain ⟨j, heq, hf, _⟩ := chooseName_spec occ base ext
  rw [heq]
  exact hf

/-! ### Directory listings and copying -/

theorem path_eq_concat_iff {p folder : List String} {nm : String} :
    p.dropLast = folder ∧ p.getLast? = some nm ↔ p = folder ++ [nm] := by
  constructor
  · rintro ⟨h1, h2⟩
    induction p using List.reverseRecOn with
    | nil => simp at h2
    | append_singleton l a _ =>
      rw [List.getLast?_concat] at h2
      rw [List.dropLast_concat] at h1
      rw [h1, Option.some_inj.mp h2]
  · rintro rfl
    exact ⟨List.dropLast_concat, List.getLast?_concat _⟩

theorem mem_dirNames {fs : List FSFile} {folder : List String} {nm : String} :
    nm ∈ dirNames fs folder ↔ ∃ g ∈ fs, g.path = folder ++ [nm] := by
  simp only [dirNames, List.mem_filterMap]
  constructor
  · rintro ⟨g, hg, hsome⟩
    by_cases hd : g.path.dropLast = folder
    · rw [if_pos hd] at hsome
      exact ⟨g, hg, path_eq_concat_iff.mp ⟨hd, hsome⟩⟩
    · rw [if_neg hd] at hsome
      exact absurd hsome (by simp)
  · rintro ⟨g, hg, hp⟩
    obtain ⟨h1, h2⟩ := path_eq_concat_iff.mpr hp
    exact ⟨g, hg, by rw [if_pos h1]; exact h2⟩

theorem copyTo_fresh {fs : List FSFile} {dst : List String} {src : FSFile}
    (h : ∀ g ∈ fs, g.path ≠ dst) :
    copyTo fs dst src = fs ++ [{ src with path := dst }] := by
  unfold copyTo
  congr 1
  exact List.filter_eq_self.mpr (fun a ha => by simpa using h a ha)

theorem copyTo_fresh_of_not_dirNames {fs : List FSFile} {folder : List String}
    {nm : String} {src : FSFile} (h : nm ∉ dirNames fs folder) :
    copyTo fs (folder ++ [nm]) src = fs ++ [{ src with path := folder ++ [nm] }] := by
  refine copyTo_fresh fun g hg hp => h ?_
  exact mem_dirNames.mpr ⟨g, hg, hp⟩

/-! ### The organizers add fresh files and never touch existing ones -/

theorem processDateFile_adds (ft : Nat → DateTime) (fs : List FSFile) (f : FSFile) :
    ∃ g, (processDateFile ft fs f).1 = fs ++ [g] ∧ g.path.length = 4
      ∧ g.path.head? = some dateTargetDir := by
  obtain ⟨folder, base, heq, hlen, hhead⟩ :
      ∃ (folder : List String) (base : String),
        (processDateFile ft fs f).1 = copyTo fs
          (folder ++ [chooseName (dirNames fs folder) base (pySuffix (nameOf f))]) f
        ∧ folder.length = 3 ∧ folder.head? = some dateTargetDir :=
    ⟨_, _, rfl, rfl, rfl⟩
  rw [heq, copyTo_fresh_of_not_dirNames (chooseName_not_mem _ _ _)]
  refine ⟨_, rfl, ?_, ?_⟩
  · simp [hlen]
  · cases folder with
    | nil => simp at hlen
    | cons a t => simpa using hhead

theorem processSizeFile_adds (fs : List FSFile) (f : FSFile) :
    ∃ g, (processSizeFile fs f).1 = fs ++ [g] ∧ g.path.length = 3
      ∧ g.path.head? = some sizeTargetDir := by
  obtain ⟨folder, heq, hlen, hhead⟩ :
      ∃ folder : List String,
        (processSizeFile fs f).1 = copyTo fs
          (folder ++ [chooseName (dirNames fs folder) (pyStem (nameOf f))
            (pySuffix (nameOf f))]) f
        ∧ folder.length = 2 ∧ folder.head? = some sizeTargetDir :=
    ⟨_, rfl, rfl, rfl⟩
  rw [heq, copyTo_fresh_of_not_dirNames (chooseName_not_mem _ _ _)]
  refine ⟨_, rfl, ?_, ?_⟩
  · simp [hlen]
  · cases folder with
    | nil => simp at hlen
    | cons a t => simpa using hhead

theorem foldl_dateStep_adds (ft : Nat → DateTime) :
    ∀ (todo : List FSFile) (fs : List FSFile) (acc : List (String × String)),
    ∃ added, (todo.foldl (dateStep ft) (fs, acc)).1 = fs ++ added
      ∧ added.length = todo.length
      ∧ ∀ g ∈ added, g.path.length = 4 ∧ g.path.head? = some dateTargetDir := by
  intro todo
  induction todo with
  | nil => intro fs acc; exact ⟨[], by simp, rfl, by simp⟩
  | cons f rest ih =>
    intro fs acc
    obtain ⟨g, hg1, hg2, hg3⟩ := processDateFile_adds ft fs f
    obtain ⟨added, ha1, ha2, ha3⟩ :=
      ih (processDateFile ft fs f).1 (acc ++ [(processDateFile ft fs f).2])
    refine ⟨g :: added, ?_, by simp [ha2], ?_⟩
    · rw [List.foldl_cons]
      show (rest.foldl (dateStep ft)
        ((processDateFile ft fs f).1, acc ++ [(processDateFile ft fs f).2])).1 = _
      rw [ha1, hg1]
      simp
    · intro x hx
      rcases List.mem_cons.mp hx with rfl | hx2
      · exact ⟨hg2, hg3⟩
      · exact ha3 x hx2

theorem foldl_sizeStep_adds :
    ∀ (todo : List FSFile) (fs : List FSFile) (acc : List (String × String × String)),
    ∃ added, (todo.foldl sizeStep (fs, acc)).1 = fs ++ added
      ∧ added.length = todo.length
      ∧ ∀ g ∈ added, g.path.length = 3 ∧ g.path.head? = some sizeTargetDir := by
  intro todo
  induction todo with
  | nil => intro fs acc; exact ⟨[], by simp, rfl, by simp⟩
  | cons f rest ih =>
    intro fs acc
    obtain ⟨g, hg1, hg2, hg3⟩ := processSizeFile_adds fs f
    obtain ⟨added, ha1, ha2, ha3⟩ :=
      ih (processSizeFile fs f).1 (acc ++ [(processSizeFile fs f).2])
    refine ⟨g :: added, ?_, by simp [ha2], ?_⟩
    · rw [List.foldl_cons]
      show (rest.foldl sizeStep
        ((processSizeFile fs f).1, acc ++ [(processSizeFile fs f).2])).1 = _
      rw [ha1, hg1]
      simp
    · intro x hx
      rcases List.mem_cons.mp hx with rfl | hx2
      · exact ⟨hg2, hg3⟩
      · exact ha3 x hx2

theorem organize_by_date_adds (ft : Nat → DateTime) (fs : List FSFile) :
    ∃ added, (organize_by_date ft fs).1 = fs ++ added
      ∧ added.length = (fs.filter isSelected).length
      ∧ ∀ g ∈ added, g.path.length = 4 ∧ g.path.head? = some dateTargetDir :=
  foldl_dateStep_adds ft (fs.filter isSelected) fs []

theorem organize_by_size_adds (fs : List FSFile) :
    ∃ added, (organize_by_size fs).1 = fs ++ added
      ∧ added.length = (fs.filter isSelected).length
      ∧ ∀ g ∈ added, g.path.length = 3 ∧ g.path.head? = some sizeTargetDir :=
  foldl_sizeStep_adds (fs.filter isSelected) fs []

theorem isSelected_false_of_not_child {g : FSFile} (h : g.path.length ≠ 1) :
    isSelected g = false := by
  simp [isSelected, h]

theorem filter_isSelected_append {fs added : List FSFile}
    (h : ∀ g ∈ added, g.path.length ≠ 1) :
    (fs ++ added).filter isSelected = fs.filter isSelected := by
  rw [List.filter_append]
  have hnil : added.filter isSelected = [] := by
    rw [List.filter_eq_nil_iff]
    intro a ha
    simp [isSelected_false_of_not_child (h a ha)]
  rw [hnil, List.append_nil]

/-! ### Grouping by hash -/

theorem lookupGroup_cons_self (k : String) (kl : List FSFile)
    (rest : List (String × List FSFile)) :
    lookupGroup ((k, kl) :: rest) k = kl := by
  simp [lookupGroup]

theorem lookupGroup_cons_ne {k h : String} (kl : List FSFile)
    (rest : List (String × List FSFile)) (hne : h ≠ k) :
    lookupGroup ((k, kl) :: rest) h = lookupGroup rest h := by
  have hb : (k == h) = false := by simp [Ne.symm hne]
  simp [lookupGroup, hb]

theorem lookupGroup_addToGroup (h0 : String) (f : FSFile) :
    ∀ (acc : List (String × List FSFile)) (h : String),
    lookupGroup (addToGroup acc h0 f) h
      = if h = h0 then lookupGroup acc h ++ [f] else lookupGroup acc h := by
  intro acc
  induction acc with
  | nil =>
    intro h
    by_cases hh : h = h0
    · subst hh
      simp [addToGroup, lookupGroup]
    · have hb : (h0 == h) = false := by simp [Ne.symm hh]
      simp [addToGroup, lookupGroup, hb, hh]
  | cons p rest ih =>
    obtain ⟨k, kl⟩ := p
    intro h
    by_cases hk : k = h0
    · subst hk
      have hstep : addToGroup ((k, kl) :: rest) k f = (k, kl ++ [f]) :: rest := by
        simp [addToGroup]
      rw [hstep]
      by_cases hh : h = k
      · subst hh
        simp [lookupGroup_cons_self]
      · simp [lookupGroup_cons_ne _ _ hh, hh]
    · have hstep : addToGroup ((k, kl) :: rest) h0 f
          = (k, kl) :: addToGroup rest h0 f := by
        simp [addToGroup, hk]
      rw [hstep]
      by_cases hh : h = k
      · subst hh
        have hne : h ≠ h0 := fun he => hk (he ▸ rfl)
        simp [lookupGroup_cons_self, hne]
      · rw [lookupGroup_cons_ne _ _ hh, lookupGroup_cons_ne _ _ hh, ih]

theorem eq_lookupGroup_of_mem :
    ∀ (acc : List (String × List FSFile)), (acc.map Prod.fst).Nodup →
    ∀ h gl, (h, gl) ∈ acc → gl = lookupGroup acc h := by
  intro acc
  induction acc with
  | nil => intro _ h gl hm; simp at hm
  | cons p rest ih =>
    obtain ⟨k, kl⟩ := p
    intro hn h gl hm
    simp only [List.map_cons, List.nodup_cons] at hn
    rcases List.mem_cons.mp hm with heq | hrest
    · obtain ⟨rfl, rfl⟩ := Prod.mk.injEq .. ▸ heq
      rw [lookupGroup_cons_self]
    · have hne : h ≠ k := by
        intro he
        subst he
        exact hn.1 (List.mem_map_of_mem Prod.fst hrest)
      rw [lookupGroup_cons_ne _ _ hne]
      exact ih hn.2 h gl hrest

theorem addToGroup_keys (h : String) (f : FSFile) :
    ∀ acc : List (String × List FSFile),
    (addToGroup acc h f).map Prod.fst
      = if h ∈ acc.map Prod.fst then acc.map Prod.fst
        else acc.map Prod.fst ++ [h] := by
  intro acc
  induction acc with
  | nil => simp [addToGroup]
  | cons p rest ih =>
    obtain ⟨k, kl⟩ := p
    by_cases hk : k = h
    · subst hk
      simp [addToGroup]
    · have hstep : addToGroup ((k, kl) :: rest) h f
          = (k, kl) :: addToGroup rest h f := by
        simp [addToGroup, hk]
      rw [hstep]
      by_cases hm : h ∈ rest.map Prod.fst <;>
        simp [ih, hm, Ne.symm hk]

theorem addToGroup_keys_nodup {acc : List (String × List FSFile)}
    (hn : (acc.map Prod.fst).Nodup) (h : String) (f : FSFile) :
    ((addToGroup acc h f).map Prod.fst).Nodup := by
  rw [addToGroup_keys]
  by_cases hm : h ∈ acc.map Prod.fst
  · simpa [hm] using hn
  · simp [hm, List.nodup_append, hn]

theorem mem_keys_addToGroup (h0 x : String) (f : FSFile)
    (acc : List (String × List FSFile)) :
    x ∈ (addToGroup acc h0 f).map Prod.fst
      ↔ x ∈ acc.map Prod.fst ∨ x = h0 := by
  rw [addToGroup_keys]
  by_cases hm : h0 ∈ acc.map Prod.fst
  · rw [if_pos hm]
    constructor
    · exact Or.inl
    · rintro (hx | rfl)
      · exact hx
      · exact hm
  · rw [if_neg hm]
    simp

theorem foldl_addToGroup_keys_nodup (φ : FSFile → String) :
    ∀ (l : List FSFile) (acc : List (String × List FSFile)),
    (acc.map Prod.fst).Nodup →
    ((l.foldl (fun a f => addToGroup a (φ f) f) acc).map Prod.fst).Nodup := by
  intro l
  induction l with
  | nil => intro acc hn; exact hn
  | cons f rest ih => intro acc hn; exact ih _ (addToGroup_keys_nodup hn _ _)

theorem foldl_addToGroup_lookup (φ : FSFile → String) :
    ∀ (l : List FSFile) (acc : List (String × List FSFile)) (h : String),
    lookupGroup (l.foldl (fun a f => addToGroup a (φ f) f) acc) h
      = lookupGroup acc h ++ l.filter (fun f => φ f == h) := by
  intro l
  induction l with
  | nil => intro acc h; simp
  | cons f rest ih =>
    intro acc h
    rw [List.foldl_cons, ih, lookupGroup_addToGroup]
    by_cases hh : h = φ f
    · rw [if_pos hh, List.filter_cons_of_pos (by simp [hh])]
      simp
    · rw [if_neg hh, List.filter_cons_of_neg (by simp [Ne.symm hh])]

theorem foldl_addToGroup_mem_keys (φ : FSFile → String) :
    ∀ (l : List FSFile) (acc : List (String × List FSFile)) (x : String),
    x ∈ (l.foldl (fun a f => addToGroup a (φ f) f) acc).map Prod.fst
      ↔ x ∈ acc.map Prod.fst ∨ ∃ f ∈ l, φ f = x := by
  intro l
  induction l with
  | nil => intro acc x; simp
  | cons f rest ih =>
    intro acc x
    rw [List.foldl_cons, ih, mem_keys_addToGroup]
    constructor
    · rintro ((hx | rfl) | hex)
      · exact Or.inl hx
      · exact Or.inr ⟨f, by simp⟩
      · obtain ⟨g, hg, hgx⟩ := hex
        exact Or.inr ⟨g, by simp [hg], hgx⟩
    · rintro (hx | hex)
      · exact Or.inl (Or.inl hx)
      · obtain ⟨g, hg, hgx⟩ := hex
        rcases List.mem_cons.mp hg with rfl | hg2
        · exact Or.inl (Or.inr hgx.symm)
        · exact Or.inr ⟨g, hg2, hgx⟩

theorem mem_grouped_iff (φ : FSFile → String) (l : List FSFile)
    (h : String) (gl : List FSFile) :
    (h, gl) ∈ l.foldl (fun a f => addToGroup a (φ f) f) []
      ↔ gl = l.filter (fun f => φ f == h) ∧ ∃ f ∈ l, φ f = h := by
  have hnodup := foldl_addToGroup_keys_nodup φ l [] (by simp)
  constructor
  · intro hm
    have hg := eq_lookupGroup_of_mem _ hnodup h gl hm
    rw [foldl_addToGroup_lookup] at hg
    simp only [lookupGroup, List.find?_nil, Option.map_none', Option.getD_none,
      List.nil_append] at hg
    refine ⟨hg, ?_⟩
    have hk : h ∈ (l.foldl (fun a f => addToGroup a (φ f) f) []).map Prod.fst :=
      List.mem_map_of_mem Prod.fst hm
    rw [foldl_addToGroup_mem_keys] at hk
    simpa using hk
  · rintro ⟨rfl, hex⟩
    have hk : h ∈ (l.foldl (fun a f => addToGroup a (φ f) f) []).map Prod.fst :=
      (foldl_addToGroup_mem_keys φ l [] h).mpr (Or.inr hex)
    obtain ⟨p, hp, hfst⟩ := List.mem_map.mp hk
    obtain ⟨h2, gl2⟩ := p
    cases hfst
    have hg := eq_lookupGroup_of_mem _ hnodup h2 gl2 hp
    rw [foldl_addToGroup_lookup] at hg
    simp only [lookupGroup, List.find?_nil, Option.map_none', Option.getD_none,
      List.nil_append] at hg
    rw [← hg]
    exact hp

theorem find_duplicates_mem (md5 : List Nat → String) (fs : List FSFile)
    (h : String) (gl : List FSFile) :
    (h, gl) ∈ find_duplicates md5 fs
      ↔ gl = (fs.filter isSelected).filter (fun f => md5 f.content == h)
        ∧ 1 < gl.length := by
  unfold find_duplicates
  rw [List.mem_filter]
  constructor
  · rintro ⟨hmem, hlen⟩
    have hch := (mem_grouped_iff (calculate_file_hash md5) (fs.filter isSelected)
      h gl).mp hmem
    refine ⟨hch.1, ?_⟩
    simpa using hlen
  · rintro ⟨hgl, hlen⟩
    have hex : ∃ f ∈ fs.filter isSelected, calculate_file_hash md5 f = h := by
      have hne : gl ≠ [] := by
        intro he
        rw [he] at hlen
        simp at hlen
      obtain ⟨x, hx⟩ := List.exists_mem_of_ne_nil gl hne
      rw [hgl] at hx
      obtain ⟨hx1, hx2⟩ := List.mem_filter.mp hx
      exact ⟨x, hx1, by simpa [calculate_file_hash] using hx2⟩
    refine ⟨(mem_grouped_iff (calculate_file_hash md5) (fs.filter isSelected)
      h gl).mpr ⟨hgl, hex⟩, by simpa using hlen⟩

theorem find_duplicates_keys_nodup (md5 : List Nat → String) (fs : List FSFile) :
    ((find_duplicates md5 fs).map Prod.fst).Nodup := by
  have hnodup := foldl_addToGroup_keys_nodup (calculate_file_hash md5)
    (fs.filter isSelected) [] (by simp)
  exact List.Nodup.sublist ((List.filter_sublist _).map Prod.fst) hnodup

theorem mem_group_facts (md5 : List Nat → String) (fs : List FSFile)
    {p : String × List FSFile} (hp : p ∈ find_duplicates md5 fs)
    {v : FSFile} (hv : v ∈ p.2) :
    v ∈ fs ∧ isSelected v = true ∧ md5 v.content = p.1 := by
  have hch := (find_duplicates_mem md5 fs p.1 p.2).mp (by simpa using hp)
  rw [hch.1] at hv
  have h1 := List.mem_filter.mp hv
  have h2 := List.mem_filter.mp h1.1
  exact ⟨h2.1, h2.2, by simpa using h1.2⟩

/-! ### Sorting and removal -/

theorem sortByMtime_perm (l : List FSFile) : (sortByMtime l).Perm l :=
  List.perm_insertionSort _ l

theorem sortByMtime_sorted (l : List FSFile) :
    (sortByMtime l).Sorted (fun a b => a.mtime ≤ b.mtime) :=
  List.sorted_insertionSort _ l

theorem victims_subset (keep : String) (files : List FSFile) :
    ∀ v ∈ victims keep files, v ∈ files := by
  intro v hv
  have hs : v ∈ sortByMtime files := by
    unfold victims at hv
    split at hv
    · exact (List.dropLast_sublist _).mem hv
    · exact (List.tail_sublist _).mem hv
  exact (sortByMtime_perm files).mem_iff.mp hs

theorem path_inj {fs : List FSFile} (hnd : (fs.map FSFile.path).Nodup)
    {a b : FSFile} (ha : a ∈ fs) (hb : b ∈ fs) (hp : a.path = b.path) : a = b :=
  List.inj_on_of_nodup_map hnd ha hb hp

theorem removeFiles_spec :
    ∀ (toRemove : List FSFile) (fsx : List FSFile) (acc : List String),
    removeFiles (fsx, acc) toRemove
      = (fsx.filter (fun g => decide (∀ v ∈ toRemove, g.path ≠ v.path)),
         acc ++ toRemove.map nameOf) := by
  intro toRemove
  induction toRemove with
  | nil =>
    intro fsx acc
    simp [removeFiles]
  | cons v rest ih =>
    intro fsx acc
    show removeFiles (fsx.filter (fun g => g.path ≠ v.path), acc ++ [nameOf v]) rest = _
    rw [ih]
    refine Prod.ext ?_ ?_
    · show (fsx.filter _).filter _ = _
      rw [List.filter_filter]
      refine List.filter_congr ?_
      intro a _
      simp [List.forall_mem_cons, Bool.and_comm]
    · simp

theorem remove_duplicates_foldl :
    ∀ (gs : List (String × List FSFile)) (keep : String)
      (fsx : List FSFile) (acc : List String),
    gs.foldl (fun st g => removeFiles st (victims keep g.2)) (fsx, acc)
      = (fsx.filter (fun g =>
            decide (∀ v ∈ gs.flatMap (fun p => victims keep p.2), g.path ≠ v.path)),
         acc ++ (gs.flatMap (fun p => victims keep p.2)).map nameOf) := by
  intro gs
  induction gs with
  | nil =>
    intro keep fsx acc
    simp
  | cons g rest ih =>
    intro keep fsx acc
    simp only [List.foldl_cons]
    rw [removeFiles_spec, ih]
    refine Prod.ext ?_ ?_
    · show (fsx.filter _).filter _ = _
      rw [List.filter_filter]
      refine List.filter_congr ?_
      intro a _
      rw [← Bool.decide_and, decide_eq_decide, List.flatMap_cons]
      constructor
      · rintro ⟨hb, ha⟩
        exact List.forall_mem_append.mpr ⟨ha, hb⟩
      · intro h
        exact ⟨(List.forall_mem_append.mp h).2, (List.forall_mem_append.mp h).1⟩
    · simp [List.flatMap_cons]

theorem remove_duplicates_eq (md5 : List Nat → String) (fs : List FSFile)
    (keep : String) :
    remove_duplicates md5 fs keep
      = (fs.filter (fun g =>
            decide (∀ v ∈ (find_duplicates md5 fs).flatMap
              (fun p => victims keep p.2), g.path ≠ v.path)),
         ((find_duplicates md5 fs).flatMap (fun p => victims keep p.2)).map nameOf) := by
  unfold remove_duplicates
  rw [remove_duplicates_foldl]
  simp

theorem mem_remove_of_not_victim (md5 : List Nat → String) (fs : List FSFile)
    (keep : String) {x : FSFile} (hx : x ∈ fs)
    (h : ∀ v ∈ (find_duplicates md5 fs).flatMap (fun p => victims keep p.2),
      x.path ≠ v.path) :
    x ∈ (remove_duplicates md5 fs keep).1 := by
  rw [remove_duplicates_eq]
  exact List.mem_filter.mpr ⟨hx, by simpa using h⟩

theorem group_member_survives (md5 : List Nat → String) (fs : List FSFile)
    (keep : String) (hnd : (fs.map FSFile.path).Nodup)
    {g : String × List FSFile} (hg : g ∈ find_duplicates md5 fs)
    {x : FSFile} (hx : x ∈ g.2) (hxv : x ∉ victims keep g.2) :
    x ∈ (remove_duplicates md5 fs keep).1 := by
  obtain ⟨hxfs, _, hxhash⟩ := mem_group_facts md5 fs hg hx
  refine mem_remove_of_not_victim md5 fs keep hxfs ?_
  intro v hv hpath
  rw [List.mem_flatMap] at hv
  obtain ⟨p, hp, hvv⟩ := hv
  have hvp := victims_subset keep p.2 v hvv
  obtain ⟨hvfs, _, hvhash⟩ := mem_group_facts md5 fs hp hvp
  have hxv2 : x = v := path_inj hnd hxfs hvfs hpath
  subst hxv2
  by_cases hkey : p.1 = g.1
  · have hpg : p.2 = g.2 := by
      have hcp := (find_duplicates_mem md5 fs p.1 p.2).mp (by simpa using hp)
      have hcg := (find_duplicates_mem md5 fs g.1 g.2).mp (by simpa using hg)
      rw [hcp.1, hcg.1, hkey]
    rw [hpg] at hvv
    exact hxv hvv
  · exact hkey (hvhash ▸ hxhash)

/-! ### Name splitting and selection -/

theorem pyStem_append_pySuffix (name : String) :
    pyStem name ++ pySuffix name = name := by
  simp only [pyStem, pySuffix]
  cases hf : name.data.reverse.findIdx? (fun c => c = '.') with
  | none => simp [hf]
  | some j =>
    simp only [hf]
    by_cases hc : (decide (0 < name.data.length - 1 - j)
        && decide (name.data.length - 1 - j < name.data.length - 1)) = true
    · rw [if_pos hc, if_pos hc]
      refine String.ext ?_
      rw [String.data_append]
      exact List.take_append_drop _ _
    · rw [if_neg hc, if_neg hc]
      simp

theorem globMatch_of_pySuffix_ne {name : String} (h : pySuffix name ≠ "") :
    globMatch name = true := by
  have hdot : '.' ∈ name.data := by
    by_cases hf : (name.data.reverse.findIdx? (fun c => c = '.')).isSome = true
    · rw [List.findIdx?_isSome] at hf
      obtain ⟨c, hc1, hc2⟩ := List.any_eq_true.mp hf
      have hcd : c = '.' := by simpa using hc2
      exact hcd ▸ List.mem_reverse.mp hc1
    · exfalso
      have hnone : name.data.reverse.findIdx? (fun c => c = '.') = none := by
        cases hx : name.data.reverse.findIdx? (fun c => c = '.') with
        | none => rfl
        | some j => rw [hx] at hf; simp at hf
      exact h (by simp [pySuffix, hnone])
  simp only [globMatch, List.contains_eq_any_beq, List.any_eq_true]
  exact ⟨'.', hdot, by simp⟩

theorem pySuffix_supported_ne_empty {name : String}
    (h : strLower (pySuffix name) ∈ supportedExts) : pySuffix name ≠ "" := by
  intro he
  rw [he] at h
  revert h
  decide

theorem underDir_true {dir : String} {g : FSFile} (h1 : g.path.head? = some dir)
    (h2 : 2 ≤ g.path.length) : underDir dir g = true := by
  simp [underDir, h1, h2]

theorem underDir_false_of_child {dir : String} {g : FSFile}
    (h : g.path.length = 1) : underDir dir g = false := by
  simp [underDir, h]

/-! ### Claim theorems -/

/-- C3: the date extractor is a total function — it always returns a
timestamp — and on every failure of the metadata path (file unreadable as an
image, DateTimeOriginal tag 36867 missing, malformed timestamp value) it
falls back to the file modification time; a well-formed tag value is parsed
and returned. -/
theorem get_image_date_fallback_spec (ft : Nat → DateTime) (f : FSFile) :
    (f.exif = none → get_image_date ft f = ft f.mtime)
    ∧ (∀ entries, f.exif = some entries →
        entries.find? (fun e => e.1 == 36867) = none →
        get_image_date ft f = ft f.mtime)
    ∧ (∀ entries e, f.exif = some entries →
        entries.find? (fun e2 => e2.1 == 36867) = some e →
        strptimeYmdHms e.2 = none →
        get_image_date ft f = ft f.mtime)
    ∧ (∀ entries e d, f.exif = some entries →
        entries.find? (fun e2 => e2.1 == 36867) = some e →
        strptimeYmdHms e.2 = some d →
        get_image_date ft f = d) := by
  refine ⟨?_, ?_, ?_, ?_⟩
  · intro h
    simp [get_image_date, h]
  · intro entries h1 h2
    simp [get_image_date, h1, h2]
  · intro entries e h1 h2 h3
    simp [get_image_date, h1, h2, h3]
  · intro entries e d h1 h2 h3
    simp [get_image_date, h1, h2, h3]

/-- Witness for C3: a file whose EXIF tag holds a malformed value falls back
to the modification-time conversion. -/
theorem get_image_date_fallback_spec_witness :
    strptimeYmdHms "garbage" = none
    ∧ get_image_date (fun n => ⟨1970, 1, 1, 0, 0, n⟩)
        ⟨["a.jpg"], [0], 7, some [(36867, "garbage")], none⟩
      = ⟨1970, 1, 1, 0, 0, 7⟩ :=
  ⟨by decide,
    (get_image_date_fallback_spec (fun n => ⟨1970, 1, 1, 0, 0, n⟩)
      ⟨["a.jpg"], [0], 7, some [(36867, "garbage")], none⟩).2.2.1
      [(36867, "garbage")] (36867, "garbage") rfl (by decide) (by decide)⟩

/-- C4: the size classifier maps a pixel count below 500000 to small, from
500000 up to but excluding 2000000 to medium, and from 2000000 on to large;
in particular exactly 500000 pixels is medium and exactly 2000000 pixels is
large. -/
theorem categorize_by_size_spec :
    (∀ w h : Nat, (categorize_by_size w h = "small" ↔ w * h < 500000)
      ∧ (categorize_by_size w h = "medium" ↔ 500000 ≤ w * h ∧ w * h < 2000000)
      ∧ (categorize_by_size w h = "large" ↔ 2000000 ≤ w * h))
    ∧ categorize_by_size 500 1000 = "medium"
    ∧ categorize_by_size 1000 2000 = "large" := by
  refine ⟨fun w h => ?_, by decide, by decide⟩
  simp only [categorize_by_size]
  by_cases h1 : w * h < 500000
  · rw [if_pos h1]
    exact ⟨⟨fun _ => h1, fun _ => rfl⟩,
      ⟨fun he => absurd he (by decide), fun hc => absurd hc.1 (by omega)⟩,
      ⟨fun he => absurd he (by decide), fun hc => absurd hc (by omega)⟩⟩
  · rw [if_neg h1]
    by_cases h2 : w * h < 2000000
    · rw [if_pos h2]
      exact ⟨⟨fun he => absurd he (by decide), fun hc => absurd hc h1⟩,
        ⟨fun _ => ⟨by omega, h2⟩, fun _ => rfl⟩,
        ⟨fun he => absurd he (by decide), fun hc => absurd hc (by omega)⟩⟩
    · rw [if_neg h2]
      exact ⟨⟨fun he => absurd he (by decide), fun hc => absurd hc h1⟩,
        ⟨fun he => absurd he (by decide), fun hc => absurd hc.2 h2⟩,
        ⟨fun _ => by omega, fun _ => rfl⟩⟩

/-- C1: the duplicate remover sorts every group ascending by modification
time (the sorted list is a permutation of the group and is sorted on
`mtime`), deletes all but the last element of the sorted group when the
retention mode is `last` and all but the first element otherwise, and
returns the flat list of the deleted names across all groups in group
order. -/
theorem remove_duplicates_retention_spec (md5 : List Nat → String)
    (fs : List FSFile) (keep : String) :
    (remove_duplicates md5 fs keep).2
      = ((find_duplicates md5 fs).flatMap (fun p => victims keep p.2)).map nameOf
    ∧ ∀ p ∈ find_duplicates md5 fs,
        (sortByMtime p.2).Perm p.2
        ∧ (sortByMtime p.2).Sorted (fun a b => a.mtime ≤ b.mtime)
        ∧ victims "last" p.2 = (sortByMtime p.2).dropLast
        ∧ (keep ≠ "last" → victims keep p.2 = (sortByMtime p.2).tail) := by
  refine ⟨?_, ?_⟩
  · rw [remove_duplicates_eq]
  · intro p hp
    exact ⟨sortByMtime_perm p.2, sortByMtime_sorted p.2, rfl,
      fun hk => by simp [victims, hk]⟩

/-- Witness for C1: three files, the two oldest sharing content; with
retention mode `first` the victims of the group are the sorted tail. -/
theorem remove_duplicates_retention_spec_witness :
    ("first" : String) ≠ "last"
    ∧ ("1", [(⟨["a.jpg"], [0], 1, some [], none⟩ : FSFile),
        ⟨["b.jpg"], [0], 2, some [], none⟩])
      ∈ find_duplicates (fun c => natDecimal c.length)
        [⟨["a.jpg"], [0], 1, some [], none⟩, ⟨["b.jpg"], [0], 2, some [], none⟩,
         ⟨["c.jpg"], [1, 1], 3, some [], none⟩]
    ∧ victims "first"
        [⟨["a.jpg"], [0], 1, some [], none⟩, ⟨["b.jpg"], [0], 2, some [], none⟩]
      = (sortByMtime [⟨["a.jpg"], [0], 1, some [], none⟩,
          ⟨["b.jpg"], [0], 2, some [], none⟩]).tail :=
  ⟨by decide, by decide,
    ((remove_duplicates_retention_spec (fun c => natDecimal c.length)
        [⟨["a.jpg"], [0], 1, some [], none⟩, ⟨["b.jpg"], [0], 2, some [], none⟩,
         ⟨["c.jpg"], [1, 1], 3, some [], none⟩] "first").2
      ("1", [⟨["a.jpg"], [0], 1, some [], none⟩, ⟨["b.jpg"], [0], 2, some [], none⟩])
      (by decide)).2.2.2 (by decide)⟩

/-- C5: the duplicate finder returns exactly the hash groups with two or
more members, each group listing, in scan order, precisely the selected
files whose digest is the group key, with no key repeated; two selected
files of identical content together with a third of different digest yield
the single group of the first two, and the third appears in no group. -/
theorem find_duplicates_spec (md5 : List Nat → String) (fs : List FSFile) :
    (∀ h gl, (h, gl) ∈ find_duplicates md5 fs
      ↔ gl = (fs.filter isSelected).filter (fun f => md5 f.content == h)
        ∧ 2 ≤ gl.length)
    ∧ ((find_duplicates md5 fs).map Prod.fst).Nodup
    ∧ ∀ f1 f2 f3 : FSFile,
        isSelected f1 = true → isSelected f2 = true → isSelected f3 = true →
        f1.content = f2.content → md5 f3.content ≠ md5 f1.content →
        find_duplicates md5 [f1, f2, f3] = [(md5 f1.content, [f1, f2])]
        ∧ ∀ p ∈ find_duplicates md5 [f1, f2, f3], f3 ∉ p.2 := by
  refine ⟨fun h gl => find_duplicates_mem md5 fs h gl,
    find_duplicates_keys_nodup md5 fs, ?_⟩
  intro f1 f2 f3 h1 h2 h3 hc hne
  have heq : find_duplicates md5 [f1, f2, f3] = [(md5 f1.content, [f1, f2])] := by
    unfold find_duplicates
    rw [List.filter_cons_of_pos h1, List.filter_cons_of_pos h2,
      List.filter_cons_of_pos h3, List.filter_nil]
    simp only [List.foldl_cons, List.foldl_nil, calculate_file_hash]
    rw [show md5 f2.content = md5 f1.content from congrArg md5 hc.symm]
    simp [addToGroup, Ne.symm hne]
  refine ⟨heq, ?_⟩
  intro p hp hf3
  rw [heq] at hp
  rw [List.mem_singleton] at hp
  subst hp
  rcases List.mem_cons.mp hf3 with rfl | hf3b
  · exact hne rfl
  · rw [List.mem_singleton] at hf3b
    subst hf3b
    exact hne (congrArg md5 hc.symm)

/-- Witness for C5: two byte-identical files and a third with different
content give exactly one group holding the first two. -/
theorem find_duplicates_spec_witness :
    isSelected ⟨["a.jpg"], [0], 1, some [], none⟩ = true
    ∧ find_duplicates (fun c => natDecimal c.length)
        [⟨["a.jpg"], [0], 1, some [], none⟩, ⟨["b.jpg"], [0], 2, some [], none⟩,
         ⟨["c.jpg"], [1, 1], 3, some [], none⟩]
      = [("1", [⟨["a.jpg"], [0], 1, some [], none⟩,
          ⟨["b.jpg"], [0], 2, some [], none⟩])] :=
  ⟨by decide,
    ((find_duplicates_spec (fun c => natDecimal c.length) []).2.2
      ⟨["a.jpg"], [0], 1, some [], none⟩ ⟨["b.jpg"], [0], 2, some [], none⟩
      ⟨["c.jpg"], [1, 1], 3, some [], none⟩
      (by decide) (by decide) (by decide) rfl (by decide)).1⟩

theorem group_nodup (md5 : List Nat → String) (fs : List FSFile)
    (hnd : (fs.map FSFile.path).Nodup)
    {p : String × List FSFile} (hp : p ∈ find_duplicates md5 fs) : p.2.Nodup := by
  have hch := (find_duplicates_mem md5 fs p.1 p.2).mp (by simpa using hp)
  have hfsnd : fs.Nodup := List.Nodup.of_map FSFile.path hnd
  rw [hch.1]
  exact List.Nodup.sublist
    ((List.filter_sublist _).trans (List.filter_sublist _)) hfsnd

/-- C2: the organizers only add copies — every file present before an
organize run is still present unchanged afterwards; the duplicate finder
only reports files that exist; the remover returns a subset of the
filesystem, deletes only files designated as victims of some duplicate
group, and the retained representative of each group (the first of the
sorted group for keep `first`, the last for keep `last`) always
survives. -/
theorem frame_effects_spec (ft : Nat → DateTime) (md5 : List Nat → String)
    (keep : String) (fs : List FSFile) (hnd : (fs.map FSFile.path).Nodup) :
    (∀ f ∈ fs, f ∈ (organize_by_date ft fs).1)
    ∧ (∀ f ∈ fs, f ∈ (organize_by_size fs).1)
    ∧ (∀ p ∈ find_duplicates md5 fs, ∀ x ∈ p.2, x ∈ fs)
    ∧ (∀ x ∈ (remove_duplicates md5 fs keep).1, x ∈ fs)
    ∧ (∀ x ∈ fs, x ∉ (remove_duplicates md5 fs keep).1 →
        ∃ p ∈ find_duplicates md5 fs, x ∈ victims keep p.2)
    ∧ (∀ p ∈ find_duplicates md5 fs, ∀ x,
        (if keep = "last" then (sortByMtime p.2).getLast?
         else (sortByMtime p.2).head?) = some x →
        x ∈ (remove_duplicates md5 fs keep).1) := by
  refine ⟨?_, ?_, ?_, ?_, ?_, ?_⟩
  · obtain ⟨added, he, _, _⟩ := organize_by_date_adds ft fs
    rw [he]
    exact fun f hf => List.mem_append_left _ hf
  · obtain ⟨added, he, _, _⟩ := organize_by_size_adds fs
    rw [he]
    exact fun f hf => List.mem_append_left _ hf
  · exact fun p hp x hx => (mem_group_facts md5 fs hp hx).1
  · rw [remove_duplicates_eq]
    exact fun x hx => (List.mem_filter.mp hx).1
  · intro x hx hnot
    rw [remove_duplicates_eq] at hnot
    have hpred : ¬ ∀ v ∈ (find_duplicates md5 fs).flatMap
        (fun p => victims keep p.2), x.path ≠ v.path := by
      intro hall
      exact hnot (List.mem_filter.mpr ⟨hx, by simpa using hall⟩)
    push_neg at hpred
    obtain ⟨v, hv, hvp⟩ := hpred
    rw [List.mem_flatMap] at hv
    obtain ⟨p, hp, hvv⟩ := hv
    have hvmem := victims_subset keep p.2 v hvv
    have hvfs := (mem_group_facts md5 fs hp hvmem).1
    have hxv : x = v := path_inj hnd hx hvfs hvp
    exact ⟨p, hp, hxv ▸ hvv⟩
  · intro p hp x hx
    have hp2nd : p.2.Nodup := group_nodup md5 fs hnd hp
    have hsortnd : (sortByMtime p.2).Nodup :=
      ((sortByMtime_perm p.2).nodup_iff).mpr hp2nd
    by_cases hk : keep = "last"
    · rw [if_pos hk] at hx
      have hsne : sortByMtime p.2 ≠ [] := by
        intro h0
        rw [h0] at hx
        simp at hx
      have hxl : x = (sortByMtime p.2).getLast hsne := by
        rw [List.getLast?_eq_getLast _ hsne] at hx
        exact (Option.some_inj.mp hx).symm
      have hxs : x ∈ sortByMtime p.2 := hxl ▸ List.getLast_mem hsne
      have hxg : x ∈ p.2 := (sortByMtime_perm p.2).mem_iff.mp hxs
      refine group_member_survives md5 fs keep hnd hp hxg ?_
      rw [hk]
      show x ∉ victims "last" p.2
      have hdl := List.dropLast_concat_getLast hsne
      intro hxd
      have : ¬ (sortByMtime p.2).Nodup := by
        rw [← hdl]
        intro hcontra
        rw [List.nodup_append] at hcontra
        exact hcontra.2.2 (hxl ▸ hxd) (List.mem_singleton_self _)
      exact this hsortnd
    · rw [if_neg hk] at hx
      cases hs : sortByMtime p.2 with
      | nil =>
        rw [hs] at hx
        simp at hx
      | cons a t =>
        rw [hs] at hx
        have hax : a = x := by simpa using hx
        subst hax
        have hxg : a ∈ p.2 := (sortByMtime_perm p.2).mem_iff.mp (by rw [hs]; simp)
        refine group_member_survives md5 fs keep hnd hp hxg ?_
        have hv : victims keep p.2 = t := by
          rw [show victims keep p.2 = (sortByMtime p.2).tail from by simp [victims, hk],
            hs]
          rfl
        rw [hv]
        rw [hs] at hsortnd
        exact (List.nodup_cons.mp hsortnd).1

/-- Witness for C2: a two-file source with distinct paths; both files are
still present after the date organizer runs. -/
theorem frame_effects_spec_witness :
    (([⟨["a.jpg"], [0], 1, some [], none⟩, ⟨["b.jpg"], [0], 2, some [], none⟩] :
        List FSFile).map FSFile.path).Nodup
    ∧ ∀ f ∈ ([⟨["a.jpg"], [0], 1, some [], none⟩,
        ⟨["b.jpg"], [0], 2, some [], none⟩] : List FSFile),
        f ∈ (organize_by_date (fun n => ⟨1970, 1, 1, 0, 0, n⟩)
          [⟨["a.jpg"], [0], 1, some [], none⟩,
           ⟨["b.jpg"], [0], 2, some [], none⟩]).1 :=
  ⟨by decide,
    (frame_effects_spec (fun n => ⟨1970, 1, 1, 0, 0, n⟩)
      (fun c => natDecimal c.length) "first"
      [⟨["a.jpg"], [0], 1, some [], none⟩, ⟨["b.jpg"], [0], 2, some [], none⟩]
      (by decide)).1⟩

/-- C6: the date organizer step copies a file to
`organized_by_date/<year>/<two-digit month>/<base><ext>`, where `base`
renders the extracted timestamp as `YYYYMMDD_HHMMSS` and `ext` is the
original suffix; when a name is taken, the candidates carrying counters 1,
2, … are tried in order and the first free one is chosen (all earlier
candidates exist at the destination). Concretely, a file with EXIF
timestamp `2021:06:15 10:30:00` lands at
`organized_by_date/2021/06/20210615_103000.jpg`, and a second file with the
identical timestamp at the `_1`-suffixed name. -/
theorem date_destination_spec (ft : Nat → DateTime) (fs : List FSFile) (f : FSFile) :
    (∃ k, (processDateFile ft fs f).1
        = fs ++ [{ f with path := [dateTargetDir,
            natDecimal (get_image_date ft f).year, pad2 (get_image_date ft f).month,
            candName (pad4 (get_image_date ft f).year ++ pad2 (get_image_date ft f).month
                ++ pad2 (get_image_date ft f).day ++ "_" ++ pad2 (get_image_date ft f).hour
                ++ pad2 (get_image_date ft f).minute ++ pad2 (get_image_date ft f).second)
              (pySuffix (nameOf f)) k] }]
      ∧ candName (pad4 (get_image_date ft f).year ++ pad2 (get_image_date ft f).month
            ++ pad2 (get_image_date ft f).day ++ "_" ++ pad2 (get_image_date ft f).hour
            ++ pad2 (get_image_date ft f).minute ++ pad2 (get_image_date ft f).second)
          (pySuffix (nameOf f)) k
          ∉ dirNames fs [dateTargetDir, natDecimal (get_image_date ft f).year,
              pad2 (get_image_date ft f).month]
      ∧ ∀ i < k, candName (pad4 (get_image_date ft f).year
            ++ pad2 (get_image_date ft f).month ++ pad2 (get_image_date ft f).day
            ++ "_" ++ pad2 (get_image_date ft f).hour ++ pad2 (get_image_date ft f).minute
            ++ pad2 (get_image_date ft f).second) (pySuffix (nameOf f)) i
          ∈ dirNames fs [dateTargetDir, natDecimal (get_image_date ft f).year,
              pad2 (get_image_date ft f).month])
    ∧ (organize_by_date (fun n => ⟨1970, 1, 1, 0, 0, n⟩)
        [⟨["a.jpg"], [0], 1, some [(36867, "2021:06:15 10:30:00")], none⟩,
         ⟨["b.jpg"], [1], 2, some [(36867, "2021:06:15 10:30:00")], none⟩]).2
      = [("a.jpg", "organized_by_date/2021/06/20210615_103000.jpg"),
         ("b.jpg", "organized_by_date/2021/06/20210615_103000_1.jpg")] := by
  constructor
  · obtain ⟨j, hcj, hfree, hmin⟩ := chooseName_spec
      (dirNames fs [dateTargetDir, natDecimal (get_image_date ft f).year,
        pad2 (get_image_date ft f).month])
      (pad4 (get_image_date ft f).year ++ pad2 (get_image_date ft f).month
        ++ pad2 (get_image_date ft f).day ++ "_" ++ pad2 (get_image_date ft f).hour
        ++ pad2 (get_image_date ft f).minute ++ pad2 (get_image_date ft f).second)
      (pySuffix (nameOf f))
    refine ⟨j, ?_, hfree, fun i hi => hmin i hi⟩
    have hstep : (processDateFile ft fs f).1 = copyTo fs
        ([dateTargetDir, natDecimal (get_image_date ft f).year,
          pad2 (get_image_date ft f).month]
          ++ [chooseName (dirNames fs [dateTargetDir,
              natDecimal (get_image_date ft f).year, pad2 (get_image_date ft f).month])
              (pad4 (get_image_date ft f).year ++ pad2 (get_image_date ft f).month
                ++ pad2 (get_image_date ft f).day ++ "_" ++ pad2 (get_image_date ft f).hour
                ++ pad2 (get_image_date ft f).minute ++ pad2 (get_image_date ft f).second)
              (pySuffix (nameOf f))]) f := rfl
    rw [hstep, hcj, copyTo_fresh_of_not_dirNames hfree]
    rfl
  · decide

/-- C7: running the date organizer or the size organizer twice in
succession on a source directory of plain files overwrites nothing — the
second run only appends further collision-suffixed copies — and the
destination tree then holds exactly twice the files one run produces. -/
theorem organize_twice_spec (ft : Nat → DateTime) (fs : List FSFile)
    (h1 : ∀ f ∈ fs, f.path.length = 1) :
    (∃ l2, (organize_by_date ft (organize_by_date ft fs).1).1
        = (organize_by_date ft fs).1 ++ l2)
    ∧ ((organize_by_date ft (organize_by_date ft fs).1).1.filter
          (underDir dateTargetDir)).length
        = 2 * ((organize_by_date ft fs).1.filter (underDir dateTargetDir)).length
    ∧ (∃ l2, (organize_by_size (organize_by_size fs).1).1
        = (organize_by_size fs).1 ++ l2)
    ∧ ((organize_by_size (organize_by_size fs).1).1.filter
          (underDir sizeTargetDir)).length
        = 2 * ((organize_by_size fs).1.filter (underDir sizeTargetDir)).length := by
  have hfs0 : ∀ dir : String, fs.filter (underDir dir) = [] := by
    intro dir
    rw [List.filter_eq_nil_iff]
    intro g hg
    simp [underDir_false_of_child (h1 g hg)]
  obtain ⟨a1, he1, hl1, hp1⟩ := organize_by_date_adds ft fs
  obtain ⟨a2, he2, hl2, hp2⟩ := organize_by_date_adds ft (organize_by_date ft fs).1
  obtain ⟨b1, hf1, hm1, hq1⟩ := organize_by_size_adds fs
  obtain ⟨b2, hf2, hm2, hq2⟩ := organize_by_size_adds (organize_by_size fs).1
  have ha1 : a1.filter (underDir dateTargetDir) = a1 :=
    List.filter_eq_self.mpr (fun g hg =>
      underDir_true (hp1 g hg).2 (by rw [(hp1 g hg).1]; omega))
  have ha2 : a2.filter (underDir dateTargetDir) = a2 :=
    List.filter_eq_self.mpr (fun g hg =>
      underDir_true (hp2 g hg).2 (by rw [(hp2 g hg).1]; omega))
  have hb1 : b1.filter (underDir sizeTargetDir) = b1 :=
    List.filter_eq_self.mpr (fun g hg =>
      underDir_true (hq1 g hg).2 (by rw [(hq1 g hg).1]; omega))
  have hb2 : b2.filter (underDir sizeTargetDir) = b2 :=
    List.filter_eq_self.mpr (fun g hg =>
      underDir_true (hq2 g hg).2 (by rw [(hq2 g hg).1]; omega))
  have hseld : (organize_by_date ft fs).1.filter isSelected = fs.filter isSelected := by
    rw [he1]
    exact filter_isSelected_append (fun g hg => by rw [(hp1 g hg).1]; omega)
  have hsels : (organize_by_size fs).1.filter isSelected = fs.filter isSelected := by
    rw [hf1]
    exact filter_isSelected_append (fun g hg => by rw [(hq1 g hg).1]; omega)
  refine ⟨⟨a2, he2⟩, ?_, ⟨b2, hf2⟩, ?_⟩
  · have hlen : a2.length = a1.length := by rw [hl2, hseld, ← hl1]
    rw [he2, List.filter_append, he1, List.filter_append, hfs0, ha1, ha2]
    simp [hlen]
    omega
  · have hlen : b2.length = b1.length := by rw [hm2, hsels, ← hm1]
    rw [hf2, List.filter_append, hf1, List.filter_append, hfs0, hb1, hb2]
    simp [hlen]
    omega

/-- Witness for C7: a one-file source directory; both organizers run twice
and double the destination tree. -/
theorem organize_twice_spec_witness :
    (∀ f ∈ ([⟨["a.jpg"], [0], 1, some [], none⟩] : List FSFile), f.path.length = 1)
    ∧ ((organize_by_date (fun n => ⟨1970, 1, 1, 0, 0, n⟩)
          (organize_by_date (fun n => ⟨1970, 1, 1, 0, 0, n⟩)
            [⟨["a.jpg"], [0], 1, some [], none⟩]).1).1.filter
        (underDir dateTargetDir)).length
      = 2 * ((organize_by_date (fun n => ⟨1970, 1, 1, 0, 0, n⟩)
          [⟨["a.jpg"], [0], 1, some [], none⟩]).1.filter
        (underDir dateTargetDir)).length :=
  ⟨by decide,
    (organize_twice_spec (fun n => ⟨1970, 1, 1, 0, 0, n⟩)
      [⟨["a.jpg"], [0], 1, some [], none⟩] (by decide)).2.1⟩

/-- C8: a file is selected for processing exactly when it is an immediate
child whose lower-cased pathlib suffix is one of the seven supported
extensions; every file that is not selected is left untouched by the date
organizer, the size organizer, the duplicate finder and the duplicate
remover. -/
theorem selection_spec (ft : Nat → DateTime) (md5 : List Nat → String)
    (keep : String) (fs : List FSFile) (hnd : (fs.map FSFile.path).Nodup) :
    (∀ f : FSFile, f.path.length = 1 →
      (isSelected f = true ↔ strLower (pySuffix (nameOf f)) ∈ supportedExts))
    ∧ ∀ f ∈ fs, isSelected f = false →
        f ∈ (organize_by_date ft fs).1 ∧ f ∈ (organize_by_size fs).1
        ∧ (∀ p ∈ find_duplicates md5 fs, f ∉ p.2)
        ∧ f ∈ (remove_duplicates md5 fs keep).1 := by
  constructor
  · intro f hl
    constructor
    · intro hsel
      simp only [isSelected, Bool.and_eq_true] at hsel
      simpa using hsel.2
    · intro hsup
      have hne := pySuffix_supported_ne_empty hsup
      have hglob := globMatch_of_pySuffix_ne hne
      simp [isSelected, hl, hglob, hsup]
  · intro f hf hnsel
    refine ⟨?_, ?_, ?_, ?_⟩
    · obtain ⟨added, he, _, _⟩ := organize_by_date_adds ft fs
      rw [he]
      exact List.mem_append_left _ hf
    · obtain ⟨added, he, _, _⟩ := organize_by_size_adds fs
      rw [he]
      exact List.mem_append_left _ hf
    · intro p hp hmem
      have hsel := (mem_group_facts md5 fs hp hmem).2.1
      rw [hnsel] at hsel
      exact Bool.false_ne_true hsel
    · refine mem_remove_of_not_victim md5 fs keep hf ?_
      intro v hv hpath
      rw [List.mem_flatMap] at hv
      obtain ⟨p, hp, hvv⟩ := hv
      have hvmem := victims_subset keep p.2 v hvv
      obtain ⟨hvfs, hvsel, _⟩ := mem_group_facts md5 fs hp hvmem
      have hfv : f = v := path_inj hnd hf hvfs hpath
      rw [hfv, hvsel] at hnsel
      exact Bool.false_ne_true hnsel.symm

/-- Witness for C8: a file with the upper-case extension `.JPG` is selected
— the comparison is case-insensitive. -/
theorem selection_spec_witness :
    (([] : List FSFile).map FSFile.path).Nodup
    ∧ (⟨["photo.JPG"], [0], 1, none, none⟩ : FSFile).path.length = 1
    ∧ isSelected ⟨["photo.JPG"], [0], 1, none, none⟩ = true :=
  ⟨by decide, by decide,
    ((selection_spec (fun n => ⟨1970, 1, 1, 0, 0, n⟩) (fun c => natDecimal c.length)
        "first" [] (by decide)).1
      ⟨["photo.JPG"], [0], 1, none, none⟩ (by decide)).mpr (by decide)⟩

/-- C9: the dispatcher runs at most one operation per invocation — the
`elif` ladder picks the first set flag in the order by-date, by-size,
find-dupes, remove-dupes — and with no mode flag set it performs no
operation and leaves the filesystem untouched; the find-duplicates branch
also leaves the filesystem untouched. -/
theorem dispatcher_spec (ft : Nat → DateTime) (md5 : List Nat → String)
    (args : Args) (fs : List FSFile) :
    (args.by_date = false → args.by_size = false → args.find_dupes = false →
      args.remove_dupes = false → mainDispatch ft md5 args fs = (none, fs))
    ∧ (args.by_date = true →
        (mainDispatch ft md5 args fs).1 = some Op.byDate)
    ∧ (args.by_date = false → args.by_size = true →
        (mainDispatch ft md5 args fs).1 = some Op.bySize)
    ∧ (args.by_date = false → args.by_size = false → args.find_dupes = true →
        mainDispatch ft md5 args fs = (some Op.findDupes, fs))
    ∧ (args.by_date = false → args.by_size = false → args.find_dupes = false →
        args.remove_dupes = true →
        (mainDispatch ft md5 args fs).1 = some Op.removeDupes) := by
  refine ⟨?_, ?_, ?_, ?_, ?_⟩
  · intro h1 h2 h3 h4
    simp [mainDispatch, h1, h2, h3, h4]
  · intro h1
    simp [mainDispatch, h1]
  · intro h1 h2
    simp [mainDispatch, h1, h2]
  · intro h1 h2 h3
    simp [mainDispatch, h1, h2, h3]
  · intro h1 h2 h3 h4
    simp [mainDispatch, h1, h2, h3, h4]

/-- Witness for C9: with no mode flag set the dispatcher does nothing. -/
theorem dispatcher_spec_witness :
    (⟨"pics", false, false, false, false, "first"⟩ : Args).by_date = false
    ∧ mainDispatch (fun n => ⟨1970, 1, 1, 0, 0, n⟩) (fun c => natDecimal c.length)
        ⟨"pics", false, false, false, false, "first"⟩ [] = (none, []) :=
  ⟨rfl,
    (dispatcher_spec (fun n => ⟨1970, 1, 1, 0, 0, n⟩) (fun c => natDecimal c.length)
      ⟨"pics", false, false, false, false, "first"⟩ []).1 rfl rfl rfl rfl⟩

/-- C10: a file whose pixel dimensions cannot be read gets size `(0, 0)`,
which classifies as small; the size organizer does not skip it but copies
it into the small bucket. -/
theorem size_fallback_spec (fs : List FSFile) (f : FSFile) (h : f.dims = none) :
    get_image_size f = (0, 0)
    ∧ categorize_by_size 0 0 = "small"
    ∧ (processSizeFile fs f).2.1 = "small"
    ∧ ∃ g nm, (processSizeFile fs f).1 = fs ++ [g]
        ∧ g.path = [sizeTargetDir, "small", nm] ∧ g.content = f.content := by
  have hgs : get_image_size f = (0, 0) := by simp [get_image_size, h]
  have hcat : categorize_by_size (get_image_size f).1 (get_image_size f).2
      = "small" := by
    rw [hgs]
    rfl
  refine ⟨hgs, rfl, hcat, ?_⟩
  have hstep : (processSizeFile fs f).1 = copyTo fs
      ([sizeTargetDir, categorize_by_size (get_image_size f).1 (get_image_size f).2]
        ++ [chooseName (dirNames fs [sizeTargetDir,
            categorize_by_size (get_image_size f).1 (get_image_size f).2])
            (pyStem (nameOf f)) (pySuffix (nameOf f))]) f := rfl
  rw [hcat] at hstep
  rw [hstep, copyTo_fresh_of_not_dirNames (chooseName_not_mem _ _ _)]
  exact ⟨_, _, rfl, rfl, rfl⟩

/-- Witness for C10: a file with unreadable dimensions is recorded in the
small bucket by the size organizer step. -/
theorem size_fallback_spec_witness :
    (⟨["broken.png"], [5], 1, none, none⟩ : FSFile).dims = none
    ∧ (processSizeFile [] ⟨["broken.png"], [5], 1, none, none⟩).2.1 = "small" :=
  ⟨rfl, (size_fallback_spec [] ⟨["broken.png"], [5], 1, none, none⟩ rfl).2.2.1⟩

/-- Witness for C4: the first boundary example, 500 by 1000 pixels. -/
theorem categorize_by_size_spec_witness :
    categorize_by_size 500 1000 = "medium" :=
  categorize_by_size_spec.2.1

/-- Witness for C6: the two-file scenario with equal EXIF timestamps. -/
theorem date_destination_spec_witness :
    (organize_by_date (fun n => ⟨1970, 1, 1, 0, 0, n⟩)
        [⟨["a.jpg"], [0], 1, some [(36867, "2021:06:15 10:30:00")], none⟩,
         ⟨["b.jpg"], [1], 2, some [(36867, "2021:06:15 10:30:00")], none⟩]).2
      = [("a.jpg", "organized_by_date/2021/06/20210615_103000.jpg"),
         ("b.jpg", "organized_by_date/2021/06/20210615_103000_1.jpg")] :=
  (date_destination_spec (fun n => ⟨1970, 1, 1, 0, 0, n⟩) []
    ⟨["x.jpg"], [], 0, none, none⟩).2

end ImageOrganizer
